import Mathlib

/-!
Verification of the season ranking pipeline and frontend route handlers of
the agentscope repository.

The ingestion + percentile-ranking engine lives in
`agentspace/analytics/season_summary_store.py`, which is referenced by the
repository documentation (`docs/season-ranking-pipeline.md`) but whose code
is not part of this tree; those components are modelled from the spec
(sections 4.1, 4.3, 4.4, 4.5).  The frontend route handlers and the chat
store are embedded directly from their TypeScript sources under
`frontend/`.
-/

/-! ## Percentile Computation Engine (spec section 4.4) -/

/-- Modelled from the spec: `agentspace/analytics/season_summary_store.py`
is missing from the tree.  Number of cohort values strictly below `v`. -/
def countLt : List ℚ → ℚ → Nat
  | [], _ => 0
  | x :: xs, v => (if x < v then 1 else 0) + countLt xs v

/-- Modelled from the spec: `agentspace/analytics/season_summary_store.py`
is missing from the tree.  Number of cohort values equal to `v`. -/
def countEq : List ℚ → ℚ → Nat
  | [], _ => 0
  | x :: xs, v => (if x = v then 1 else 0) + countEq xs v

/-- Modelled from the spec: the percentile score of value `v` among the
cohort values `xs`, per section 4.4 (mean-rank-for-ties).  The tied block
for `v` occupies 1-indexed ranks `countLt xs v + 1 .. countLt xs v +
countEq xs v` in the ascending sort, whose mean is
`countLt xs v + (countEq xs v + 1) / 2`; the score is
`100 * (average_rank - 1) / (n - 1)` when `n > 1`, and `100` when
`n = 1`. -/
def percentileOf (xs : List ℚ) (v : ℚ) : ℚ :=
  if xs.length ≤ 1 then 100
  else
    100 * (((countLt xs v : ℚ) + (((countEq xs v : ℚ) + 1) / 2)) - 1) /
      ((xs.length : ℚ) - 1)

/-- Modelled from the spec: whole-cohort recomputation.  Each player is
scored with `percentileOf` against the full multiset of cohort values. -/
def computePercentiles (pairs : List (String × ℚ)) : List (String × ℚ) :=
  pairs.map (fun p => (p.1, percentileOf (pairs.map Prod.snd) p.2))

/-! ## Cohort & Threshold Policy (spec section 4.1) -/

/-- Modelled from the spec: the minimum-minutes policy carried by a
TrackingSpec season entry (`min_minutes` override, `min_minutes_percent`,
`min_minutes_floor`). -/
structure SeasonPolicy where
  min_minutes : Option ℚ
  min_minutes_percent : ℚ
  min_minutes_floor : ℚ
deriving DecidableEq

/-- Modelled from the spec: maximum of the fetched minute totals (the
maximum over a non-empty list; `0` for an empty fetch). -/
def maxMinutes : List ℚ → ℚ
  | [] => 0
  | x :: xs => xs.foldl max x

/-- Modelled from the spec: the effective minutes threshold of section
4.1 — the explicit `min_minutes` override when present, otherwise the
minimum of `min_minutes_percent * max(minutes)` and `min_minutes_floor`
(the loosest bound wins). -/
def effectiveThreshold (p : SeasonPolicy) (minutes : List ℚ) : ℚ :=
  match p.min_minutes with
  | some m => m
  | none => min (p.min_minutes_percent * maxMinutes minutes) p.min_minutes_floor

/-- Modelled from the spec: a player is included exactly when their
minutes are not strictly below the effective threshold. -/
def includedAtThreshold (threshold m : ℚ) : Bool := threshold ≤ m

/-- C1: the spec's end-to-end fixture claims percentiles {100, 50, 50} for
metric values {10, 5, 5}, computed by the mean-rank-for-ties formula of
section 4.4.  The formula actually yields {100, 25, 25}: the tied 5s
occupy ranks 1 and 2 of the ascending sort, average rank 1.5, score
`100 * (1.5 - 1) / (3 - 1) = 25`.  So the claimed output is wrong. -/
theorem C1_fixture_counterexample :
    computePercentiles [(("A"), 10), (("B"), 5), (("C"), 5)] ≠
      [(("A"), 100), (("B"), 50), (("C"), 50)] := by
  norm_num [computePercentiles, percentileOf, countLt, countEq]

/-- C1 (amended): on the cohort with metric values {10, 5, 5}, the
mean-rank-for-ties formula of section 4.4 computes percentiles
{100, 25, 25}. -/
theorem C1_fixture_amended :
    computePercentiles [(("A"), 10), (("B"), 5), (("C"), 5)] =
      [(("A"), 100), (("B"), 25), (("C"), 25)] := by
  norm_num [computePercentiles, percentileOf, countLt, countEq]

/-- C2: for a season entry without an explicit `min_minutes` override and a
non-empty fetch, the effective threshold is
`min(min_minutes_percent * max(minutes), min_minutes_floor)`; with
percent 0.2, floor 600 and a 3000-minute maximum the threshold is 600, a
599-minute player is excluded and a 600-minute player is included. -/
theorem C2_effective_threshold (p : SeasonPolicy) (minutes : List ℚ)
    (hov : p.min_minutes = none) (hne : minutes ≠ []) :
    effectiveThreshold p minutes =
      min (p.min_minutes_percent * maxMinutes minutes) p.min_minutes_floor ∧
    effectiveThreshold ⟨none, 1/5, 600⟩ [3000, 599, 600] = 600 ∧
    includedAtThreshold (effectiveThreshold ⟨none, 1/5, 600⟩ [3000, 599, 600]) 599 = false ∧
    includedAtThreshold (effectiveThreshold ⟨none, 1/5, 600⟩ [3000, 599, 600]) 600 = true := by
  refine ⟨by simp [effectiveThreshold, hov], ?_, ?_, ?_⟩ <;>
    norm_num [effectiveThreshold, includedAtThreshold, maxMinutes, max_def, min_def]

/-- C2 witness: the theorem applied to the spec's concrete policy
(no override, percent 1/5, floor 600) and fetch {3000, 599, 600}. -/
theorem C2_effective_threshold_witness :
    effectiveThreshold ⟨none, 1/5, 600⟩ [3000, 599, 600] =
      min ((1/5 : ℚ) * maxMinutes [3000, 599, 600]) 600 ∧
    effectiveThreshold ⟨none, 1/5, 600⟩ [3000, 599, 600] = 600 ∧
    includedAtThreshold (effectiveThreshold ⟨none, 1/5, 600⟩ [3000, 599, 600]) 599 = false ∧
    includedAtThreshold (effectiveThreshold ⟨none, 1/5, 600⟩ [3000, 599, 600]) 600 = true :=
  C2_effective_threshold ⟨none, 1/5, 600⟩ [3000, 599, 600] rfl (by simp)

/-! ## Properties of the percentile engine (spec section 8) -/

/-- Counting below `a` dominates counting below-or-equal `b` when `b < a`. -/
theorem countLt_ge_countLt_add_countEq (xs : List ℚ) {a b : ℚ} (h : b < a) :
    countLt xs b + countEq xs b ≤ countLt xs a := by
  induction xs with
  | nil => simp [countLt, countEq]
  | cons x xs ih =>
    simp only [countLt, countEq]
    by_cases h1 : x < b
    · have h3 : x < a := h1.trans h
      have h2 : ¬ x = b := ne_of_lt h1
      rw [if_pos h1, if_neg h2, if_pos h3]
      omega
    · by_cases h2 : x = b
      · have h3 : x < a := h2 ▸ h
        rw [if_neg h1, if_pos h2, if_pos h3]
        omega
      · by_cases h3 : x < a
        · rw [if_neg h1, if_neg h2, if_pos h3]
          omega
        · rw [if_neg h1, if_neg h2, if_neg h3]
          omega

/-- A member of the cohort is counted at least once among its equals. -/
theorem one_le_countEq_of_mem {xs : List ℚ} {a : ℚ} (h : a ∈ xs) :
    1 ≤ countEq xs a := by
  induction xs with
  | nil => cases h
  | cons x xs ih =>
    rcases List.mem_cons.mp h with h | h
    · simp [countEq, h.symm]
    · have := ih h
      simp only [countEq]
      omega

/-- The strictly-below and equal counts never exceed the cohort size. -/
theorem countLt_add_countEq_le_length (xs : List ℚ) (a : ℚ) :
    countLt xs a + countEq xs a ≤ xs.length := by
  induction xs with
  | nil => simp [countLt, countEq]
  | cons x xs ih =>
    simp only [countLt, countEq, List.length_cons]
    by_cases h1 : x < a
    · have h2 : ¬ x = a := ne_of_lt h1
      rw [if_pos h1, if_neg h2]
      omega
    · by_cases h2 : x = a
      · rw [if_neg h1, if_pos h2]
        omega
      · rw [if_neg h1, if_neg h2]
        omega

/-- C3: over any cohort, the mean-rank percentile is monotone
non-decreasing in the raw value, assigns exactly equal scores to equal
raw values, and always lands in the closed interval [0, 100]. -/
theorem C3_monotone_ties_bounded (xs : List ℚ) (a b : ℚ)
    (ha : a ∈ xs) (hb : b ∈ xs) :
    (b < a → percentileOf xs b ≤ percentileOf xs a) ∧
    (a = b → percentileOf xs a = percentileOf xs b) ∧
    (0 ≤ percentileOf xs a ∧ percentileOf xs a ≤ 100) := by
  by_cases hn : xs.length ≤ 1
  · simp [percentileOf, hn]
  · have hn2 : 2 ≤ xs.length := by omega
    have hnq : (2:ℚ) ≤ (xs.length : ℚ) := by exact_mod_cast hn2
    have hd : (0:ℚ) < (xs.length : ℚ) - 1 := by linarith
    have hta : (1:ℚ) ≤ (countEq xs a : ℚ) := by
      exact_mod_cast one_le_countEq_of_mem ha
    have hca : (0:ℚ) ≤ (countLt xs a : ℚ) := by positivity
    have hlen : (countLt xs a : ℚ) + (countEq xs a : ℚ) ≤ (xs.length : ℚ) := by
      exact_mod_cast countLt_add_countEq_le_length xs a
    refine ⟨?_, ?_, ?_, ?_⟩
    · intro hba
      have hkey : (countLt xs b : ℚ) + (countEq xs b : ℚ) ≤ (countLt xs a : ℚ) := by
        exact_mod_cast countLt_ge_countLt_add_countEq xs hba
      have htb : (1:ℚ) ≤ (countEq xs b : ℚ) := by
        exact_mod_cast one_le_countEq_of_mem hb
      rw [percentileOf, percentileOf, if_neg hn, if_neg hn,
        div_le_div_iff hd hd]
      nlinarith [hd.le]
    · intro h
      rw [h]
    · rw [percentileOf, if_neg hn]
      apply div_nonneg _ hd.le
      nlinarith
    · rw [percentileOf, if_neg hn, div_le_iff hd]
      nlinarith

/-- C3 witness: the percentile properties instantiated on the cohort
{10, 5, 5} at values 10 and 5. -/
theorem C3_monotone_ties_bounded_witness :
    percentileOf [10, 5, 5] 5 ≤ percentileOf [10, 5, 5] 10 ∧
    (0 ≤ percentileOf [10, 5, 5] 10 ∧ percentileOf [10, 5, 5] 10 ≤ 100) :=
  ⟨(C3_monotone_ties_bounded [10, 5, 5] 10 5 (by simp) (by simp)).1 (by norm_num),
   (C3_monotone_ties_bounded [10, 5, 5] 10 5 (by simp) (by simp)).2.2⟩

/-! ## Schema/Store and Ingestion Engine (spec sections 3 and 4.3) -/

/-- Modelled from the spec: a flat upstream record per player/season
(section 6 upstream adapter contract). -/
structure PlayerRecord where
  player_id : Nat
  player_name : String
  team : String
  position : String
  minutes : ℚ
  metrics : List (String × ℚ)
deriving DecidableEq

/-- Modelled from the spec: a `player_season_summary` row; `key` is the
(competition_id, season_id) pair of its natural key. -/
structure SummaryRow where
  key : Nat × Nat
  player_id : Nat
  player_name : String
  team : String
  position : String
  minutes : ℚ
deriving DecidableEq

/-- Modelled from the spec: a `player_season_metric` row. -/
structure MetricRow where
  key : Nat × Nat
  player_id : Nat
  metric_name : String
  value : ℚ
deriving DecidableEq

/-- Modelled from the spec: a `player_metric_percentile` row; the cohort
key is the (competition_id, season_id) pair plus a suffix (`all` or
`position:<BucketName>`). -/
structure PercentileRow where
  key : Nat × Nat
  cohort_suffix : String
  player_id : Nat
  metric_name : String
  score : ℚ
deriving DecidableEq

/-- Modelled from the spec: the persistent relational cache holding the
three player-facing tables. -/
structure Store where
  summaries : List SummaryRow
  metrics : List MetricRow
  percentiles : List PercentileRow
deriving DecidableEq

/-- Modelled from the spec: the season entry of a TrackingSpec — its
minimum-minutes policy and its position-bucket definitions
(name, set of raw position strings). -/
structure SeasonSpec where
  policy : SeasonPolicy
  buckets : List (String × List String)
deriving DecidableEq

/-- Modelled from the spec: the summary row upserted for one included
player. -/
def summaryOf (k : Nat × Nat) (r : PlayerRecord) : SummaryRow :=
  ⟨k, r.player_id, r.player_name, r.team, r.position, r.minutes⟩

/-- Modelled from the spec: the metric rows upserted for the included
players — one row per metric present in the upstream payload. -/
def metricRowsOf (k : Nat × Nat) (rs : List PlayerRecord) : List MetricRow :=
  rs.flatMap (fun r => r.metrics.map (fun m => ⟨k, r.player_id, m.1, m.2⟩))

/-- Modelled from the spec: distinct metric names present in a cohort. -/
def metricNames (rs : List PlayerRecord) : List String :=
  (rs.flatMap (fun r => r.metrics.map Prod.fst)).dedup

/-- Modelled from the spec: the (player_id, raw_value) pairs of the
cohort members holding a value for metric `m`. -/
def metricPairs (m : String) (rs : List PlayerRecord) : List (Nat × ℚ) :=
  rs.filterMap (fun r => (r.metrics.lookup m).map (fun v => (r.player_id, v)))

/-- Modelled from the spec: the whole-cohort percentile rows for one
cohort (key, suffix, members): one row per member per metric the member
holds, scored by `percentileOf` against the cohort's values. -/
def percentileRowsFor (k : Nat × Nat) (suffix : String) (rs : List PlayerRecord) :
    List PercentileRow :=
  (metricNames rs).flatMap (fun m =>
    (metricPairs m rs).map (fun pv =>
      ⟨k, suffix, pv.1, m, percentileOf ((metricPairs m rs).map Prod.snd) pv.2⟩))

/-- Modelled from the spec: cohort members of a position bucket. -/
def bucketMembers (bucket : List String) (rs : List PlayerRecord) : List PlayerRecord :=
  rs.filter (fun r => bucket.contains r.position)

/-- Modelled from the spec: the players of the payload retained by the
Cohort & Threshold Policy (minutes not strictly below the effective
threshold computed from the full fetch). -/
def includedPlayers (spec : SeasonSpec) (rs : List PlayerRecord) : List PlayerRecord :=
  rs.filter (fun r =>
    includedAtThreshold (effectiveThreshold spec.policy (rs.map (fun x => x.minutes))) r.minutes)

/-- Modelled from the spec: all percentile rows recomputed for one
ingestion batch — the `all` cohort plus every configured position
bucket. -/
def cohortRows (spec : SeasonSpec) (k : Nat × Nat) (included : List PlayerRecord) :
    List PercentileRow :=
  percentileRowsFor k ("all") included ++
    spec.buckets.flatMap (fun b =>
      percentileRowsFor k (("position:") ++ b.1) (bucketMembers b.2 included))

/-- Modelled from the spec: one ingestion run for competition/season `k`
(section 4.3) — threshold-filter the payload, then transactionally
replace every summary, metric and percentile row of `k` with rows derived
from the included players, recomputing percentiles whole-cohort. -/
def ingest (spec : SeasonSpec) (k : Nat × Nat) (rs : List PlayerRecord) (s : Store) : Store :=
  let included := includedPlayers spec rs
  { summaries := s.summaries.filter (fun row => row.key ≠ k) ++ included.map (summaryOf k),
    metrics := s.metrics.filter (fun row => row.key ≠ k) ++ metricRowsOf k included,
    percentiles := s.percentiles.filter (fun row => row.key ≠ k) ++ cohortRows spec k included }

/-- Every upserted summary row carries the batch key and an included
player's id. -/
theorem mem_summaryRows {k : Nat × Nat} {rs : List PlayerRecord} {row : SummaryRow}
    (h : row ∈ rs.map (summaryOf k)) :
    row.key = k ∧ ∃ r ∈ rs, r.player_id = row.player_id := by
  rcases List.mem_map.mp h with ⟨r, hr, hrow⟩
  exact ⟨by rw [← hrow]; rfl, r, hr, by rw [← hrow]; rfl⟩

/-- Every upserted metric row carries the batch key and an included
player's id. -/
theorem mem_metricRowsOf {k : Nat × Nat} {rs : List PlayerRecord} {row : MetricRow}
    (h : row ∈ metricRowsOf k rs) :
    row.key = k ∧ ∃ r ∈ rs, r.player_id = row.player_id := by
  rcases List.mem_flatMap.mp h with ⟨r, hr, hrow⟩
  rcases List.mem_map.mp hrow with ⟨m, _, hm⟩
  exact ⟨by rw [← hm], r, hr, by rw [← hm]⟩

/-- Every metric pair originates from a cohort member. -/
theorem mem_metricPairs {m : String} {rs : List PlayerRecord} {pv : Nat × ℚ}
    (h : pv ∈ metricPairs m rs) : ∃ r ∈ rs, r.player_id = pv.1 := by
  rcases List.mem_filterMap.mp h with ⟨r, hr, hpv⟩
  rcases Option.map_eq_some'.mp hpv with ⟨v, _, hv⟩
  exact ⟨r, hr, by rw [← hv]⟩

/-- Every recomputed percentile row carries the batch key and a cohort
member's id. -/
theorem mem_percentileRowsFor {k : Nat × Nat} {suffix : String}
    {rs : List PlayerRecord} {row : PercentileRow}
    (h : row ∈ percentileRowsFor k suffix rs) :
    row.key = k ∧ ∃ r ∈ rs, r.player_id = row.player_id := by
  rcases List.mem_flatMap.mp h with ⟨m, _, hrow⟩
  rcases List.mem_map.mp hrow with ⟨pv, hpv, hm⟩
  rcases mem_metricPairs hpv with ⟨r, hr, hrid⟩
  exact ⟨by rw [← hm], r, hr, by rw [← hm]; exact hrid⟩

/-- Bucket members form a subset of the batch's included players. -/
theorem mem_bucketMembers {bucket : List String} {rs : List PlayerRecord}
    {r : PlayerRecord} (h : r ∈ bucketMembers bucket rs) : r ∈ rs :=
  (List.mem_filter.mp h).1

/-- Every cohort percentile row of a batch carries the batch key and an
included player's id. -/
theorem mem_cohortRows {spec : SeasonSpec} {k : Nat × Nat}
    {included : List PlayerRecord} {row : PercentileRow}
    (h : row ∈ cohortRows spec k included) :
    row.key = k ∧ ∃ r ∈ included, r.player_id = row.player_id := by
  rcases List.mem_append.mp h with h | h
  · exact mem_percentileRowsFor h
  · rcases List.mem_flatMap.mp h with ⟨b, _, hrow⟩
    rcases mem_percentileRowsFor hrow with ⟨hk, r, hr, hrid⟩
    exact ⟨hk, r, mem_bucketMembers hr, hrid⟩

/-- Replacing the key-`k` segment of a table twice with the same rows is
the same as replacing it once. -/
theorem filter_ne_append_replace {α : Type} (key : α → Nat × Nat) (k : Nat × Nat)
    [DecidableEq α] (old new : List α) (hnew : ∀ row ∈ new, key row = k) :
    ((old.filter (fun row => key row ≠ k) ++ new).filter (fun row => key row ≠ k)) =
      old.filter (fun row => key row ≠ k) := by
  rw [List.filter_append, List.filter_filter]
  have h1 : new.filter (fun row => key row ≠ k) = [] := by
    apply List.filter_eq_nil_iff.mpr
    intro row hrow
    simp [hnew row hrow]
  have h2 : old.filter (fun row => decide (key row ≠ k) && decide (key row ≠ k)) =
      old.filter (fun row => key row ≠ k) := by
    apply List.filter_congr
    intro row _
    simp
  rw [h1, h2, List.append_nil]

/-- C4: ingestion is idempotent — running the same batch twice in a row
with the identical upstream payload leaves the stored summary, metric and
percentile rows identical to the state after the first run. -/
theorem C4_ingest_idempotent (spec : SeasonSpec) (k : Nat × Nat)
    (rs : List PlayerRecord) (s : Store) :
    ingest spec k rs (ingest spec k rs s) = ingest spec k rs s := by
  have h1 := filter_ne_append_replace SummaryRow.key k s.summaries
    ((includedPlayers spec rs).map (summaryOf k))
    (fun row hrow => (mem_summaryRows hrow).1)
  have h2 := filter_ne_append_replace MetricRow.key k s.metrics
    (metricRowsOf k (includedPlayers spec rs))
    (fun row hrow => (mem_metricRowsOf hrow).1)
  have h3 := filter_ne_append_replace PercentileRow.key k s.percentiles
    (cohortRows spec k (includedPlayers spec rs))
    (fun row hrow => (mem_cohortRows hrow).1)
  simp only [ingest, Store.mk.injEq]
  refine ⟨?_, ?_, ?_⟩
  · rw [h1]
  · rw [h2]
  · rw [h3]

/-- Modelled from the spec: one scheduled ingestion run — a season entry,
its (competition_id, season_id) key, and the upstream payload fetched for
it. -/
structure Run where
  spec : SeasonSpec
  key : Nat × Nat
  payload : List PlayerRecord
deriving DecidableEq

/-- Modelled from the spec: executing one ingestion run against the
store. -/
def runStep (s : Store) (r : Run) : Store := ingest r.spec r.key r.payload s

/-- Modelled from the spec: executing a sequence of ingestion runs in
order. -/
def ingestAll (runs : List Run) (s : Store) : Store := runs.foldl runStep s

/-- Player `pid` appears in some stored row for competition/season `k`. -/
def appearsIn (s : Store) (k : Nat × Nat) (pid : Nat) : Prop :=
  (∃ row ∈ s.summaries, row.key = k ∧ row.player_id = pid) ∨
  (∃ row ∈ s.metrics, row.key = k ∧ row.player_id = pid) ∨
  (∃ row ∈ s.percentiles, row.key = k ∧ row.player_id = pid)

/-- In run `run`, every payload record of player `pid` is strictly below
the run's effective minutes threshold. -/
def belowThresholdFor (run : Run) (pid : Nat) : Prop :=
  ∀ r ∈ run.payload, r.player_id = pid →
    r.minutes < effectiveThreshold run.spec.policy (run.payload.map (fun x => x.minutes))

/-- A single ingestion run never introduces a row for a player who is
below its threshold, and never resurrects rows for other keys. -/
theorem not_appearsIn_ingest {spec : SeasonSpec} {kk k : Nat × Nat}
    {rs : List PlayerRecord} {s : Store} {pid : Nat}
    (h0 : ¬ appearsIn s k pid)
    (h1 : kk = k → ∀ r ∈ rs, r.player_id = pid →
      r.minutes < effectiveThreshold spec.policy (rs.map (fun x => x.minutes))) :
    ¬ appearsIn (ingest spec kk rs s) k pid := by
  have hinc : ∀ r ∈ includedPlayers spec rs, kk = k → r.player_id ≠ pid := by
    intro r hr hkk hpid
    rcases List.mem_filter.mp hr with ⟨hmem, hthr⟩
    have hle : effectiveThreshold spec.policy (rs.map (fun x => x.minutes)) ≤ r.minutes := by
      simpa [includedAtThreshold] using hthr
    exact absurd (h1 hkk r hmem hpid) (not_lt.mpr hle)
  intro h
  apply h0
  rcases h with h | h | h
  · rcases h with ⟨row, hrow, hk, hpid⟩
    simp only [ingest] at hrow
    rcases List.mem_append.mp hrow with hold | hnew
    · exact Or.inl ⟨row, (List.mem_filter.mp hold).1, hk, hpid⟩
    · rcases mem_summaryRows hnew with ⟨hkey, r, hr, hrid⟩
      exact absurd (hrid.trans hpid) (hinc r hr (hkey ▸ hk))
  · rcases h with ⟨row, hrow, hk, hpid⟩
    simp only [ingest] at hrow
    rcases List.mem_append.mp hrow with hold | hnew
    · exact Or.inr (Or.inl ⟨row, (List.mem_filter.mp hold).1, hk, hpid⟩)
    · rcases mem_metricRowsOf hnew with ⟨hkey, r, hr, hrid⟩
      exact absurd (hrid.trans hpid) (hinc r hr (hkey ▸ hk))
  · rcases h with ⟨row, hrow, hk, hpid⟩
    simp only [ingest] at hrow
    rcases List.mem_append.mp hrow with hold | hnew
    · exact Or.inr (Or.inr ⟨row, (List.mem_filter.mp hold).1, hk, hpid⟩)
    · rcases mem_cohortRows hnew with ⟨hkey, r, hr, hrid⟩
      exact absurd (hrid.trans hpid) (hinc r hr (hkey ▸ hk))

/-- An ingestion run for `k` wholesale-replaces the `k` rows: whatever
the prior store held, a player below the run's threshold appears in no
`k` row afterwards. -/
theorem not_appearsIn_ingest_self {spec : SeasonSpec} {k : Nat × Nat}
    {rs : List PlayerRecord} {s : Store} {pid : Nat}
    (h1 : ∀ r ∈ rs, r.player_id = pid →
      r.minutes < effectiveThreshold spec.policy (rs.map (fun x => x.minutes))) :
    ¬ appearsIn (ingest spec k rs s) k pid := by
  have hinc : ∀ r ∈ includedPlayers spec rs, r.player_id ≠ pid := by
    intro r hr hpid
    rcases List.mem_filter.mp hr with ⟨hmem, hthr⟩
    have hle : effectiveThreshold spec.policy (rs.map (fun x => x.minutes)) ≤ r.minutes := by
      simpa [includedAtThreshold] using hthr
    exact absurd (h1 r hmem hpid) (not_lt.mpr hle)
  intro h
  rcases h with h | h | h
  · rcases h with ⟨row, hrow, hk, hpid⟩
    simp only [ingest] at hrow
    rcases List.mem_append.mp hrow with hold | hnew
    · have hne := (List.mem_filter.mp hold).2
      simp only [decide_eq_true_eq] at hne
      exact hne hk
    · rcases mem_summaryRows hnew with ⟨_, r, hr, hrid⟩
      exact hinc r hr (hrid.trans hpid)
  · rcases h with ⟨row, hrow, hk, hpid⟩
    simp only [ingest] at hrow
    rcases List.mem_append.mp hrow with hold | hnew
    · have hne := (List.mem_filter.mp hold).2
      simp only [decide_eq_true_eq] at hne
      exact hne hk
    · rcases mem_metricRowsOf hnew with ⟨_, r, hr, hrid⟩
      exact hinc r hr (hrid.trans hpid)
  · rcases h with ⟨row, hrow, hk, hpid⟩
    simp only [ingest] at hrow
    rcases List.mem_append.mp hrow with hold | hnew
    · have hne := (List.mem_filter.mp hold).2
      simp only [decide_eq_true_eq] at hne
      exact hne hk
    · rcases mem_cohortRows hnew with ⟨_, r, hr, hrid⟩
      exact hinc r hr (hrid.trans hpid)

/-- Runs for other competition/seasons never write `k` rows. -/
theorem not_appearsIn_ingestAll_of_other (runs : List Run) (s : Store)
    (k : Nat × Nat) (pid : Nat)
    (h0 : ¬ appearsIn s k pid) (hruns : ∀ r ∈ runs, r.key ≠ k) :
    ¬ appearsIn (ingestAll runs s) k pid := by
  induction runs generalizing s with
  | nil => simpa [ingestAll] using h0
  | cons run rest ih =>
    have hstep : ¬ appearsIn (runStep s run) k pid :=
      not_appearsIn_ingest h0
        (fun heq => absurd heq (hruns run (List.mem_cons_self run rest)))
    simpa [ingestAll, List.foldl_cons] using
      ih (runStep s run) hstep (fun r hr => hruns r (List.mem_cons_of_mem _ hr))

/-- C5: coverage consistency — after any sequence of ingestion runs, a
player who is below the effective minutes threshold of the last run for
competition/season `k` appears in no summary, metric or percentile row
for `k`.  The initial store and the earlier runs are arbitrary: in
particular the player may have been included (above threshold) by earlier
runs for `k` and drop out of coverage in the last one. -/
theorem C5_coverage_consistency (pre : List Run) (run : Run) (post : List Run)
    (s : Store) (k : Nat × Nat) (pid : Nat)
    (hk : run.key = k)
    (hpost : ∀ r ∈ post, r.key ≠ k)
    (hbelow : belowThresholdFor run pid) :
    ¬ appearsIn (ingestAll (pre ++ run :: post) s) k pid := by
  have hsplit : ingestAll (pre ++ run :: post) s =
      ingestAll post (runStep (ingestAll pre s) run) := by
    simp [ingestAll, List.foldl_append, List.foldl_cons]
  rw [hsplit]
  refine not_appearsIn_ingestAll_of_other post (runStep (ingestAll pre s) run) k pid ?_ hpost
  subst hk
  exact not_appearsIn_ingest_self (fun r hr hpid => hbelow r hr hpid)

/-- C5 witness: coverage drift for competition/season (1, 1) — run 1
includes player 7 with 3000 minutes (above its 600 threshold), run 2
holds player 7 with 599 minutes, below the 600 threshold induced by
percent 1/5, floor 600 and a 3000-minute leader; after both runs player 7
ends up in no stored row. -/
theorem C5_coverage_consistency_witness :
    ¬ appearsIn
        (ingestAll
          ([⟨⟨⟨none, 1/5, 600⟩, []⟩, (1, 1),
              [⟨7, ("Drift"), ("T"), ("GK"), 3000, [(("goals"), 4)]⟩]⟩] ++
            ⟨⟨⟨none, 1/5, 600⟩, []⟩, (1, 1),
              [⟨7, ("Drift"), ("T"), ("GK"), 599, [(("goals"), 1)]⟩,
               ⟨8, ("High"), ("T"), ("GK"), 3000, [(("goals"), 2)]⟩]⟩ :: [])
          ⟨[], [], []⟩)
        (1, 1) 7 := by
  apply C5_coverage_consistency
  · rfl
  · intro r hr
    cases hr
  · intro r hr hpid
    rcases List.mem_cons.mp hr with h | h
    · subst h
      norm_num [effectiveThreshold, maxMinutes, max_def, min_def]
    · rcases List.mem_cons.mp h with h | h
      · subst h
        exact absurd hpid (by norm_num)
      · cases h

/-! ## Query/Ranking Service (spec sections 4.2 and 4.5) -/

/-- Modelled from the spec: the typed query error kinds of section 7 that
the read-only service returns. -/
inductive QueryError where
  | CacheEmpty
  | UnknownMetric
  | PlayerNotFound
deriving DecidableEq

/-- Modelled from the spec: canonical metric names actually present for a
competition/season — the distinct `metric_name` values currently
stored. -/
def canonicalMetrics (s : Store) (k : Nat × Nat) : List String :=
  ((s.metrics.filter (fun row => row.key = k)).map (fun row => row.metric_name)).dedup

/-- Modelled from the spec: alias resolution of section 4.2 —
case-insensitive exact match against the alias table first, then against
the canonical names present for the competition/season. -/
def resolveMetric (aliases : List (String × String)) (canonical : List String)
    (name : String) : Option String :=
  match aliases.find? (fun a => a.1.toLower == name.toLower) with
  | some a => some a.2
  | none => canonical.find? (fun c => c.toLower == name.toLower)

/-- Modelled from the spec: a leaderboard entry produced by
`RankByMetric`. -/
structure RankedRow where
  player_id : Nat
  player_name : String
  value : ℚ
  score : ℚ
deriving DecidableEq

/-- Modelled from the spec: requested leaderboard sort order. -/
inductive SortOrder where
  | asc
  | desc
deriving DecidableEq

/-- Modelled from the spec: leaderboard comparison — raw metric value in
the requested order, ties broken by higher percentile and then by player
name. -/
def rankLE (o : SortOrder) (a b : RankedRow) : Bool :=
  if a.value = b.value then
    if a.score = b.score then a.player_name ≤ b.player_name
    else b.score ≤ a.score
  else
    match o with
    | .desc => b.value ≤ a.value
    | .asc => a.value ≤ b.value

/-- Insertion step of the leaderboard sort. -/
def insertRanked (le : RankedRow → RankedRow → Bool) (x : RankedRow) :
    List RankedRow → List RankedRow
  | [] => [x]
  | y :: ys => if le x y then x :: y :: ys else y :: insertRanked le x ys

/-- Insertion sort used to order leaderboard rows. -/
def sortRanked (le : RankedRow → RankedRow → Bool) (l : List RankedRow) :
    List RankedRow :=
  l.foldr (insertRanked le) []

/-- Modelled from the spec: `RankByMetric` of section 4.5 — fails with
`CacheEmpty` when no summary rows exist for the competition/season, then
resolves the metric (failing with `UnknownMetric`), then joins summary,
metric and percentile rows for the resolved cohort, sorts and truncates
to `limit`. -/
def rankByMetric (aliases : List (String × String)) (s : Store) (k : Nat × Nat)
    (metric : String) (bucket : Option String) (o : SortOrder) (limit : Nat) :
    Except QueryError (List RankedRow) :=
  if (s.summaries.filter (fun row => row.key = k)).isEmpty then
    .error .CacheEmpty
  else
    match resolveMetric aliases (canonicalMetrics s k) metric with
    | none => .error .UnknownMetric
    | some m =>
      let suffix :=
        match bucket with
        | none => ("all")
        | some b => ("position:") ++ b
      let rows := (s.metrics.filter
          (fun row => decide (row.key = k) && (row.metric_name == m))).filterMap
        (fun mr =>
          match s.summaries.find? (fun su => decide (su.key = k) &&
                  (su.player_id == mr.player_id)),
              s.percentiles.find? (fun pr => decide (pr.key = k) &&
                  (pr.cohort_suffix == suffix) && (pr.player_id == mr.player_id) &&
                  (pr.metric_name == m)) with
          | some su, some pr => some ⟨mr.player_id, su.player_name, mr.value, pr.score⟩
          | _, _ => none)
      .ok ((sortRanked (rankLE o) rows).take limit)

/-- C6: `RankByMetric` returns `CacheEmpty` exactly when no summary row is
stored for the competition/season — never an empty list for a
never-ingested season, and never `CacheEmpty` once at least one row is
stored. -/
theorem C6_cache_empty (aliases : List (String × String)) (s : Store) (k : Nat × Nat)
    (metric : String) (bucket : Option String) (o : SortOrder) (limit : Nat) :
    s.summaries.filter (fun row => row.key = k) = [] ↔
      rankByMetric aliases s k metric bucket o limit = .error .CacheEmpty := by
  constructor
  · intro h
    simp [rankByMetric, h]
  · intro h
    by_cases he : (s.summaries.filter (fun row => row.key = k)).isEmpty
    · exact List.isEmpty_iff.mp he
    · exfalso
      simp only [rankByMetric, if_neg he] at h
      cases hre : resolveMetric aliases (canonicalMetrics s k) metric with
      | none => rw [hre] at h; exact QueryError.noConfusion (Except.error.inj h)
      | some m => rw [hre] at h; exact Except.noConfusion h

/-! ## Composite suite scores (spec section 4.4) -/

/-- Modelled from the spec: the query-time composite suite score — the
weighted arithmetic mean of the player's percentile scores over exactly
those suite metrics the player has; a metric absent for the player is
excluded from the average, and a player with no suite metric at all has
no composite score. -/
def compositeScore (suite : List (String × ℚ)) (pcts : List (String × ℚ)) : Option ℚ :=
  let present := suite.filterMap (fun mw => (pcts.lookup mw.1).map (fun p => (mw.2, p)))
  if present.isEmpty then none
  else some ((present.map (fun x => x.1 * x.2)).sum / (present.map (fun x => x.1)).sum)

/-- C7: a suite metric the player lacks is excluded from the composite
rather than counted as zero; a player with equally weighted percentiles
{80, 60} has composite 70, and a player holding only one of the two
metrics has composite equal to that single percentile. -/
theorem C7_suite_composite (suite : List (String × ℚ)) (pcts : List (String × ℚ))
    (m : String) (w : ℚ) (h : pcts.lookup m = none) :
    compositeScore (suite ++ [(m, w)]) pcts = compositeScore suite pcts ∧
    compositeScore [(("a"), 1), (("b"), 1)] [(("a"), 80), (("b"), 60)] = some 70 ∧
    compositeScore [(("a"), 1), (("b"), 1)] [(("a"), 80)] = some 80 := by
  have e1 : ((("a") == ("a")) : Bool) = true := by decide
  have e2 : ((("b") == ("a")) : Bool) = false := by decide
  have e3 : ((("a") == ("b")) : Bool) = false := by decide
  have e4 : ((("b") == ("b")) : Bool) = true := by decide
  refine ⟨?_, ?_, ?_⟩
  · have hp : List.filterMap (fun mw => Option.map (fun p => (mw.2, p)) (List.lookup mw.1 pcts))
        (suite ++ [(m, w)]) =
        List.filterMap (fun mw => Option.map (fun p => (mw.2, p)) (List.lookup mw.1 pcts)) suite := by
      simp [List.filterMap_append, h]
    simp only [compositeScore, hp]
  · norm_num [compositeScore, List.lookup, List.filterMap_cons, List.filterMap_nil,
      e1, e2, e3, e4]
  · norm_num [compositeScore, List.lookup, List.filterMap_cons, List.filterMap_nil,
      e1, e2, e3, e4]

/-- C7 witness: appending the absent metric `b` to a one-metric suite
leaves the composite of a player holding only `a` unchanged, and the two
fixture composites evaluate to 70 and 80. -/
theorem C7_suite_composite_witness :
    compositeScore ([(("a"), 1)] ++ [(("b"), 1)]) [(("a"), 80)] =
      compositeScore [(("a"), 1)] [(("a"), 80)] ∧
    compositeScore [(("a"), 1), (("b"), 1)] [(("a"), 80), (("b"), 60)] = some 70 ∧
    compositeScore [(("a"), 1), (("b"), 1)] [(("a"), 80)] = some 80 :=
  C7_suite_composite [(("a"), 1)] [(("a"), 80)] ("b") 1 (by simp [List.lookup])

/-! ## Frontend chat route handler (`frontend/app/api/chat/route.ts`) -/

/-- The parsed JSON body of a POST to the chat route.  A field whose JSON
value is missing or not a string is modelled as `none`; `teamContext` is
kept abstract as an optional opaque payload. -/
structure ChatBody where
  message : Option String
  persona : Option String
  sessionId : Option String
  teamContext : Option String
deriving DecidableEq

/-- `!msg.trim()` in the handler: the message is blank exactly when every
character is whitespace. -/
def isBlank (s : String) : Bool := s.toList.all (fun c => c.isWhitespace)

/-- Outcome of the chat POST handler: either an immediate JSON response
with a status code, or the upstream fetch to the backend
`/api/agent/chat` endpoint with the forwarded payload. -/
inductive ChatResult where
  | response (status : Nat) (error : String)
  | upstreamChat (sessionId : Option String) (persona : String) (message : String)
deriving DecidableEq

/-- The POST handler of `frontend/app/api/chat/route.ts`: a missing body,
a missing/non-string/blank `message`, then a persona other than
`Analyst` or `Scouting Evaluator`, each return a 400 JSON error; only
then is the upstream fetch issued. -/
def chatPOST (body : Option ChatBody) : ChatResult :=
  match body with
  | none => .response 400 ("Message is required.")
  | some b =>
    match b.message with
    | none => .response 400 ("Message is required.")
    | some msg =>
      if isBlank msg then .response 400 ("Message is required.")
      else if (b.persona != some ("Analyst")) && (b.persona != some ("Scouting Evaluator")) then
        .response 400 ("Unsupported persona.")
      else .upstreamChat b.sessionId (b.persona.getD ("")) msg

/-- The request body lacks a non-blank string `message`. -/
def lacksValidMessage (body : Option ChatBody) : Bool :=
  match body with
  | none => true
  | some b =>
    match b.message with
    | none => true
    | some msg => isBlank msg

/-- The request carries one of the two supported personas. -/
def hasSupportedPersona (body : Option ChatBody) : Bool :=
  match body with
  | none => false
  | some b => (b.persona == some ("Analyst")) || (b.persona == some ("Scouting Evaluator"))

/-- Whether the handler issued the upstream fetch. -/
def ChatResult.isUpstream : ChatResult → Bool
  | .response _ _ => false
  | .upstreamChat _ _ _ => true

/-- The HTTP status of an immediate JSON response, if any. -/
def ChatResult.status : ChatResult → Option Nat
  | .response s _ => some s
  | .upstreamChat _ _ _ => none

/-- C8: whenever the body lacks a non-blank string `message` or its
persona is unsupported, the chat POST handler answers with an HTTP 400
JSON error and never issues the upstream fetch. -/
theorem C8_chat_post_validation (body : Option ChatBody)
    (h : lacksValidMessage body = true ∨ hasSupportedPersona body = false) :
    (chatPOST body).status = some 400 ∧ (chatPOST body).isUpstream = false := by
  match body with
  | none => simp [chatPOST, ChatResult.status, ChatResult.isUpstream]
  | some b =>
    match hm : b.message with
    | none => simp [chatPOST, hm, ChatResult.status, ChatResult.isUpstream]
    | some msg =>
      by_cases hb : isBlank msg = true
      · simp [chatPOST, hm, hb, ChatResult.status, ChatResult.isUpstream]
      · have hp : hasSupportedPersona (some b) = false := by
          rcases h with h | h
          · simp [lacksValidMessage, hm] at h
            exact absurd h hb
          · exact h
        have hnp : ¬ b.persona = some ("Analyst") ∧ ¬ b.persona = some ("Scouting Evaluator") := by
          simpa [hasSupportedPersona] using hp
        simp [chatPOST, hm, hb, hnp.1, hnp.2, ChatResult.status, ChatResult.isUpstream]

/-- C8 witness: a body with message `hi` but persona `Coach` is rejected
with 400 and no upstream call. -/
theorem C8_chat_post_validation_witness :
    (chatPOST (some ⟨some ("hi"), some ("Coach"), none, none⟩)).status = some 400 ∧
    (chatPOST (some ⟨some ("hi"), some ("Coach"), none, none⟩)).isUpstream = false :=
  C8_chat_post_validation (some ⟨some ("hi"), some ("Coach"), none, none⟩)
    (Or.inr (by decide))

/-! ## Frontend chat store (`frontend/lib/store/chat-store.ts`) -/

/-- Message roles of the chat store. -/
inductive Role where
  | user
  | assistant
  | system
deriving DecidableEq

/-- An image attachment of a chat message (`ChatAttachment`). -/
structure ChatAttachment where
  id : String
  type : String
  src : String
  path : Option String
  alt : Option String
deriving DecidableEq

/-- A chat message of the store (`ChatMessage`); `metadata` is kept
abstract as an optional opaque payload. -/
structure ChatMessage where
  id : String
  role : Role
  content : String
  planPreview : Option Bool
  streamingDone : Option Bool
  attachments : Option (List ChatAttachment)
  metadata : Option String
deriving DecidableEq

/-- `updateMessage` of the chat store: map over the messages, applying the
updater exactly to the messages whose id matches. -/
def updateMessage (id : String) (updater : ChatMessage → ChatMessage)
    (messages : List ChatMessage) : List ChatMessage :=
  messages.map (fun message => if message.id == id then updater message else message)

/-- C9: `updateMessage` preserves the length and order of the message
list, and entry `i` of the result is entry `i` of the input with the
updater applied exactly when its id matches the given id — every message
with a different id is unchanged. -/
theorem C9_updateMessage_frame (id : String) (updater : ChatMessage → ChatMessage)
    (messages : List ChatMessage) :
    (updateMessage id updater messages).length = messages.length ∧
    ∀ i : Nat, (updateMessage id updater messages).get? i =
      (messages.get? i).map (fun m => if m.id == id then updater m else m) := by
  refine ⟨by simp [updateMessage], fun i => ?_⟩
  simp [updateMessage]

/-! ## Frontend visualization route (`frontend/app/api/viz/route.ts`) -/

/-- `rawPath.replace(/\\/g, "/")`: every backslash becomes a forward
slash. -/
def normSlashes (s : String) : String :=
  String.mk (s.toList.map (fun c => if c = ('\\' : Char) then ('/' : Char) else c))

/-- JavaScript `String.prototype.startsWith` on the embedded strings. -/
def startsWithStr (p s : String) : Bool := p.toList.isPrefixOf s.toList

/-- The `KNOWN_PREFIXES` directory list of the route. -/
def knownDirs : List String := [("plots"), (".cache/offline_index")]

/-- `path.join`, modelled as concatenation with a separator (sufficient
here: no claim depends on join normalization). -/
def pathJoin (a b : String) : String := a ++ ("/") ++ b

/-- The filesystem is abstracted as a stat oracle: `none` means `fs.stat`
throws (no such file), `some b` means stat succeeds and `b` tells whether
the entry is a regular file. -/
def tryKnownDirs (fs : String → Option Bool) (root : String) (normalized : String) :
    List String → Option String
  | [] => none
  | d :: ds =>
    match fs (pathJoin (pathJoin root d) normalized) with
    | some true => some (pathJoin (pathJoin root d) normalized)
    | _ => tryKnownDirs fs root normalized ds

/-- `resolveImagePath` of the route: normalize slashes; remote http(s)
paths resolve to nothing; otherwise probe each known directory for a
regular file, then fall back to the workspace-relative path, which is
returned whenever stat succeeds (the code returns the fallback even when
it is not a regular file) and is `null` when stat throws. -/
def resolveImagePath (fs : String → Option Bool) (root : String) (rawPath : String) :
    Option String :=
  let normalized := normSlashes rawPath
  if startsWithStr ("http://") normalized || startsWithStr ("https://") normalized then
    none
  else
    match tryKnownDirs fs root normalized knownDirs with
    | some c => some c
    | none =>
      match fs (pathJoin root normalized) with
      | none => none
      | some _ => some (pathJoin root normalized)

/-- Response of the viz GET handler: a JSON error with a status, or a
served file. -/
inductive VizResponse where
  | json (status : Nat) (error : String)
  | file (status : Nat) (content : List Nat)
deriving DecidableEq

/-- The GET handler of `frontend/app/api/viz/route.ts`: missing (or empty,
which is falsy) `path` gives 400; an unresolved path gives 404; otherwise
the file is read and served, with a 500 on a read failure. -/
def vizGET (fs : String → Option Bool) (readF : String → Option (List Nat))
    (root : String) (pathParam : Option String) : VizResponse :=
  match pathParam with
  | none => .json 400 ("Missing `path` query parameter.")
  | some raw =>
    if raw = ("") then .json 400 ("Missing `path` query parameter.")
    else
      match resolveImagePath fs root raw with
      | none => .json 404 ("Image not found.")
      | some resolved =>
        match readF resolved with
        | some data => .file 200 data
        | none => .json 500 ("Failed to read visualization.")

/-- A list without backslashes is untouched by slash normalization. -/
theorem map_norm_of_no_backslash (l : List Char) (hl : ∀ c ∈ l, c ≠ ('\\' : Char)) :
    l.map (fun c => if c = ('\\' : Char) then ('/' : Char) else c) = l := by
  induction l with
  | nil => rfl
  | cons c cs ih =>
    simp only [List.map_cons]
    rw [if_neg (hl c (List.mem_cons_self c cs)),
      ih (fun d hd => hl d (List.mem_cons_of_mem c hd))]

/-- Slash normalization preserves a prefix containing no backslash. -/
theorem startsWithStr_normSlashes {p raw : String}
    (hp : ∀ c ∈ p.toList, c ≠ ('\\' : Char))
    (h : startsWithStr p raw = true) :
    startsWithStr p (normSlashes raw) = true := by
  rw [startsWithStr, List.isPrefixOf_iff_prefix] at h ⊢
  rcases h with ⟨t, ht⟩
  have hmap : (normSlashes raw).toList =
      raw.toList.map (fun c => if c = ('\\' : Char) then ('/' : Char) else c) := rfl
  rw [hmap, ← ht, List.map_append, map_norm_of_no_backslash p.toList hp]
  exact ⟨t.map (fun c => if c = ('\\' : Char) then ('/' : Char) else c), rfl⟩

/-- C10: a `path` query beginning with `http://` or `https://` makes
`resolveImagePath` return nothing — independently of the filesystem, so
no file is consulted — and the handler answers 404; a request with no
`path` parameter answers 400. -/
theorem C10_viz_remote_rejected (fs : String → Option Bool)
    (readF : String → Option (List Nat)) (root raw : String)
    (h : startsWithStr ("http://") raw = true ∨ startsWithStr ("https://") raw = true) :
    resolveImagePath fs root raw = none ∧
    vizGET fs readF root (some raw) = .json 404 ("Image not found.") ∧
    vizGET fs readF root none = .json 400 ("Missing `path` query parameter.") := by
  have hcond : (startsWithStr ("http://") (normSlashes raw) ||
      startsWithStr ("https://") (normSlashes raw)) = true := by
    rcases h with h | h
    · simp [startsWithStr_normSlashes (by decide) h]
    · simp [startsWithStr_normSlashes (by decide) h]
  have hres : resolveImagePath fs root raw = none := by
    simp only [resolveImagePath, hcond, if_true]
  have hne : ¬ raw = ("") := by
    intro he
    subst he
    rcases h with h | h <;> exact absurd h (by decide)
  refine ⟨hres, ?_, rfl⟩
  simp [vizGET, hne, hres]

/-- C10 witness: the remote path `http://example.com/a.png` is rejected
with 404 even on a filesystem claiming every path is a file, and a
missing `path` parameter yields 400. -/
theorem C10_viz_remote_rejected_witness :
    resolveImagePath (fun _ => some true) (".") ("http://example.com/a.png") = none ∧
    vizGET (fun _ => some true) (fun _ => some []) (".")
      (some ("http://example.com/a.png")) = .json 404 ("Image not found.") ∧
    vizGET (fun _ => some true) (fun _ => some []) (".") none =
      .json 400 ("Missing `path` query parameter.") :=
  C10_viz_remote_rejected (fun _ => some true) (fun _ => some []) (".")
    ("http://example.com/a.png") (Or.inl (by decide))
